import Mathlib

/-!
Shallow embedding of the Mandelbrot plotter (`src/main.rs`).

Modelling conventions:
* Rust `f64` values are modelled by exact rationals (`ℚ`).  Every concrete
  computation appearing in the claims below (the point `(5,0)`, the literal
  mapper scenario, the parsed decimals) is exact dyadic/decimal arithmetic,
  where `f64` and `ℚ` agree.
* Rust `usize` is modelled by `Nat` (no render index here can overflow).
* Rust strings are modelled as `List Char`; the separators used are ASCII,
  for which Rust's byte indexing in `parse_pair` coincides with character
  indexing.
* The fallible `assert!` in `render` is modelled by returning `Option`:
  `none` is the fatal assertion failure.
-/

namespace Mandelbrot

/-- A complex number (`num::Complex<f64>`), components modelled as exact
rationals. -/
structure Complex where
  re : ℚ
  im : ℚ
  deriving DecidableEq, Repr

instance : Mul Complex := ⟨fun a b => ⟨a.re * b.re - a.im * b.im, a.re * b.im + a.im * b.re⟩⟩

instance : Add Complex := ⟨fun a b => ⟨a.re + b.re, a.im + b.im⟩⟩

@[simp] theorem Complex.mul_def (a b : Complex) :
    a * b = ⟨a.re * b.re - a.im * b.im, a.re * b.im + a.im * b.re⟩ := rfl

@[simp] theorem Complex.add_def (a b : Complex) :
    a + b = ⟨a.re + b.re, a.im + b.im⟩ := rfl

/-- `Complex::norm_sqr`: squared norm `re² + im²`. -/
def Complex.norm_sqr (z : Complex) : ℚ := z.re * z.re + z.im * z.im

/-- The loop of `escape_time`: `fuel` iterations remain, `z` is the current
orbit value, `i` the current iteration index. -/
def escapeTimeGo (c : Complex) : Nat → Complex → Nat → Option Nat
  | 0, _, _ => none
  | fuel + 1, z, i =>
    if 4 < z.norm_sqr then some i
    else escapeTimeGo c fuel (z * z + c) (i + 1)

/-- `escape_time` from `src/main.rs`: starting from `z = (0,0)`, for
`i` in `0..limit`, first test `z.norm_sqr() > 4.0` (return `Some i`),
otherwise update `z ← z*z + c`; return `None` if the loop finishes. -/
def escape_time (c : Complex) (limit : Nat) : Option Nat :=
  escapeTimeGo c limit ⟨0, 0⟩ 0

/-- The orbit of the escape-time iteration: `zIter c k` is the value of `z`
at the start of loop iteration `k` (`z₀ = 0`, `z_{k+1} = z_k² + c`). -/
def zIter (c : Complex) : Nat → Complex
  | 0 => ⟨0, 0⟩
  | k + 1 => zIter c k * zIter c k + c

/-- `pixel_to_point` from `src/main.rs`. `bounds = (width, height)` in
pixels, `pixel = (column, row)`. -/
def pixel_to_point (bounds : Nat × Nat) (pixel : Nat × Nat)
    (upper_left lower_right : Complex) : Complex :=
  let width : ℚ := lower_right.re - upper_left.re
  let height : ℚ := upper_left.im - lower_right.im
  { re := upper_left.re + (pixel.1 : ℚ) * width / (bounds.1 : ℚ)
    im := upper_left.im - (pixel.2 : ℚ) * height / (bounds.2 : ℚ) }

/-- `parse_pair` from `src/main.rs`, generic over the token parse function
(Rust's `T::from_str`): find the first occurrence of `sep`, parse the text
before and after it, and succeed only if both tokens parse. -/
def parse_pair {T : Type} (from_str : List Char → Option T)
    (s : List Char) (sep : Char) : Option (T × T) :=
  match List.findIdx? (fun ch => ch == sep) s with
  | some index =>
    match from_str (s.take index), from_str (s.drop (index + 1)) with
    | some l, some r => some (l, r)
    | _, _ => none
  | none => none

/-- Numeric value of a digit string (most significant first). -/
def digitsVal (s : List Char) : Nat :=
  s.foldl (fun acc ch => acc * 10 + (ch.toNat - 48)) 0

/-- Models Rust `usize::from_str`/the digits part of integer parsing: a
nonempty all-digit string. -/
def parseNat (s : List Char) : Option Nat :=
  if s ≠ [] ∧ s.all (fun ch => ch.isDigit) then some (digitsVal s) else none

/-- Models Rust `i32::from_str` on in-range inputs: optional sign followed
by a nonempty digit string (overflow is not modelled; the claims only use
small values). -/
def parseInt (s : List Char) : Option Int :=
  match s with
  | '-' :: rest => (parseNat rest).map (fun n => -(n : Int))
  | '+' :: rest => (parseNat rest).map (fun n => (n : Int))
  | _ => (parseNat s).map (fun n => (n : Int))

/-- Models Rust `f64::from_str` on plain decimal literals (optional sign,
digits, optional decimal point; no exponent/inf/NaN forms, which no claim
exercises), with the exact decimal value as a rational. -/
def parseFloat (s : List Char) : Option ℚ :=
  let core : List Char → Option ℚ := fun t =>
    match List.findIdx? (fun ch => ch == '.') t with
    | none =>
      if t ≠ [] ∧ t.all (fun ch => ch.isDigit) then some (digitsVal t) else none
    | some idx =>
      let ip := t.take idx
      let fp := t.drop (idx + 1)
      if (ip ≠ [] ∨ fp ≠ []) ∧ ip.all (fun ch => ch.isDigit) ∧
          fp.all (fun ch => ch.isDigit) then
        some ((digitsVal ip : ℚ) + (digitsVal fp : ℚ) / (10 : ℚ) ^ fp.length)
      else none
  match s with
  | '-' :: rest => (core rest).map (fun q => -q)
  | '+' :: rest => core rest
  | _ => core s

/-- `parse_complex` from `src/main.rs`: a comma-separated pair of floats. -/
def parse_complex (s : List Char) : Option Complex :=
  match parse_pair parseFloat s ',' with
  | some (re, im) => some ⟨re, im⟩
  | none => none

/-- The byte written for one pixel in `render`: `255 - count as u8` on
escape (with `count < 255` the `as u8` cast `count % 256` is the identity
and the `u8` subtraction cannot underflow), `0` otherwise. -/
def pixelByte (bounds : Nat × Nat) (upper_left lower_right : Complex)
    (column row : Nat) : Nat :=
  match escape_time (pixel_to_point bounds (column, row) upper_left lower_right) 255 with
  | some count => 255 - count % 256
  | none => 0

/-- Body of the inner (column) loop of `render`: write the pixel byte at
index `row * bounds.0 + column`. -/
def renderCell (bounds : Nat × Nat) (upper_left lower_right : Complex)
    (row : Nat) (buf : List Nat) (column : Nat) : List Nat :=
  buf.set (row * bounds.1 + column) (pixelByte bounds upper_left lower_right column row)

/-- Body of the outer (row) loop of `render`: the inner loop over
`column in 0..bounds.0`. -/
def renderRow (bounds : Nat × Nat) (upper_left lower_right : Complex)
    (buf : List Nat) (row : Nat) : List Nat :=
  (List.range bounds.1).foldl (renderCell bounds upper_left lower_right row) buf

/-- `render` from `src/main.rs`.  The `assert!(pixels.len() == bounds.0 *
bounds.1)` is modelled by returning `none` on violation; otherwise the
nested loops over rows and columns fill the buffer. -/
def render (pixels : List Nat) (bounds : Nat × Nat)
    (upper_left lower_right : Complex) : Option (List Nat) :=
  if pixels.length = bounds.1 * bounds.2 then
    some ((List.range bounds.2).foldl (renderRow bounds upper_left lower_right) pixels)
  else none

/-! ### Properties of the escape-time loop -/

theorem zIter_succ (c : Complex) (k : Nat) :
    zIter c (k + 1) = zIter c k * zIter c k + c := rfl

/-- If the loop, started at iteration `k` on the orbit value `zIter c k`
with `fuel` iterations left, returns `some i`, then `i` is the first
iteration at or after `k` whose orbit value has squared norm above `4`,
and `i` lies in `[k, k + fuel)`. -/
theorem escapeTimeGo_some_spec (c : Complex) :
    ∀ (fuel k i : Nat), escapeTimeGo c fuel (zIter c k) k = some i →
      k ≤ i ∧ i < k + fuel ∧ 4 < (zIter c i).norm_sqr ∧
        ∀ j, k ≤ j → j < i → ¬ 4 < (zIter c j).norm_sqr := by
  intro fuel
  induction fuel with
  | zero => intro k i h; simp [escapeTimeGo] at h
  | succ fuel ih =>
    intro k i h
    rw [escapeTimeGo] at h
    by_cases h4 : 4 < (zIter c k).norm_sqr
    · rw [if_pos h4] at h
      have hk : k = i := by injection h
      subst hk
      exact ⟨le_refl k, by omega, h4, fun j hkj hjk => absurd hkj (by omega)⟩
    · rw [if_neg h4, ← zIter_succ] at h
      obtain ⟨h1, h2, h3, h5⟩ := ih (k + 1) i h
      refine ⟨by omega, by omega, h3, ?_⟩
      intro j hkj hji
      rcases Nat.eq_or_lt_of_le hkj with rfl | hlt
      · exact h4
      · exact h5 j hlt hji

/-- If the loop returns `none`, no orbit value in the remaining iteration
range has squared norm above `4`. -/
theorem escapeTimeGo_none_spec (c : Complex) :
    ∀ (fuel k : Nat), escapeTimeGo c fuel (zIter c k) k = none →
      ∀ j, k ≤ j → j < k + fuel → ¬ 4 < (zIter c j).norm_sqr := by
  intro fuel
  induction fuel with
  | zero => intro k _ j h1 h2; exact absurd h2 (by omega)
  | succ fuel ih =>
    intro k h j h1 h2
    rw [escapeTimeGo] at h
    by_cases h4 : 4 < (zIter c k).norm_sqr
    · rw [if_pos h4] at h; exact absurd h (by simp)
    · rw [if_neg h4, ← zIter_succ] at h
      rcases Nat.eq_or_lt_of_le h1 with rfl | hlt
      · exact h4
      · exact ih (k + 1) h j hlt (by omega)

/-- The iteration index returned by the loop is at least the starting
index. -/
theorem escapeTimeGo_index_le (c : Complex) :
    ∀ (fuel : Nat) (z : Complex) (k i : Nat),
      escapeTimeGo c fuel z k = some i → k ≤ i := by
  intro fuel
  induction fuel with
  | zero => intro z k i h; simp [escapeTimeGo] at h
  | succ fuel ih =>
    intro z k i h
    rw [escapeTimeGo] at h
    by_cases h4 : 4 < z.norm_sqr
    · rw [if_pos h4] at h
      have : k = i := by injection h
      omega
    · rw [if_neg h4] at h
      have := ih _ _ _ h
      omega

/-- A reported escape index is below the iteration limit. -/
theorem escape_time_lt_limit (c : Complex) (limit i : Nat)
    (h : escape_time c limit = some i) : i < limit := by
  have := escapeTimeGo_some_spec c limit 0 i h
  omega

/-- A point whose own squared norm exceeds `4` escapes at iteration `1`
whenever the limit is at least `2`: the first check sees `z = (0,0)`, the
second sees `z = c`. -/
theorem escape_time_escapes_at_one (c : Complex) (L : Nat) (hL : 2 ≤ L)
    (hc : 4 < c.norm_sqr) : escape_time c L = some 1 := by
  obtain ⟨k, rfl⟩ : ∃ k, L = k + 2 := ⟨L - 2, by omega⟩
  show escapeTimeGo c (k + 2) ⟨0, 0⟩ 0 = some 1
  rw [escapeTimeGo, if_neg (by norm_num [Complex.norm_sqr])]
  rw [escapeTimeGo, if_pos (by simpa [Complex.norm_sqr] using hc)]

/-! ### Claim theorems: escape time -/

/-- C2: for every complex point `c` and positive limit, `escape_time`
follows the stated algorithm: a returned index `i` satisfies `i < limit`,
the orbit value `zIter c i` (reached from `z = (0,0)` by `z ← z² + c`) is
the first with squared norm exceeding `4`, and a `none` result means no
orbit value within the limit exceeded the threshold. -/
theorem escape_time_follows_algorithm (c : Complex) (limit : Nat)
    (hpos : 0 < limit) :
    (∀ i, escape_time c limit = some i →
      i < limit ∧ 4 < (zIter c i).norm_sqr ∧
        ∀ j, j < i → ¬ 4 < (zIter c j).norm_sqr) ∧
    (escape_time c limit = none →
      ∀ j, j < limit → ¬ 4 < (zIter c j).norm_sqr) := by
  constructor
  · intro i h
    obtain ⟨h1, h2, h3, h4⟩ := escapeTimeGo_some_spec c limit 0 i h
    exact ⟨by omega, h3, fun j hj => h4 j (Nat.zero_le j) hj⟩
  · intro h j hj
    exact escapeTimeGo_none_spec c limit 0 h j (Nat.zero_le j) (by omega)

/-- C2 witness: at `c = (5,0)`, `limit = 2`, the returned index `1` has
orbit value of squared norm above `4`. -/
theorem escape_time_follows_algorithm_witness :
    4 < (zIter ⟨5, 0⟩ 1).norm_sqr :=
  ((escape_time_follows_algorithm ⟨5, 0⟩ 2 (by norm_num)).1 1
    (by norm_num [escape_time, escapeTimeGo, Complex.norm_sqr])).2.1

/-- C3 counterexample: with `c = (5,0)` and limit `L = 2 ≥ 1`, the code
reports escape at iteration `1`, not at iteration `0`: the first norm
check happens while `z` is still `(0,0)`. -/
theorem escape_time_five_not_zero :
    escape_time ⟨5, 0⟩ 2 = some 1 ∧ escape_time ⟨5, 0⟩ 2 ≠ some 0 := by
  constructor <;> norm_num [escape_time, escapeTimeGo, Complex.norm_sqr]

/-- C3 amended: for `c = (5,0)` and any limit `L ≥ 2`, escape is reported
at iteration `1` (with `L = 1` the single check sees `z = (0,0)` and the
function returns `none`). -/
theorem escape_time_five_amended (L : Nat) (hL : 2 ≤ L) :
    escape_time ⟨5, 0⟩ L = some 1 := by
  obtain ⟨k, rfl⟩ : ∃ k, L = k + 2 := ⟨L - 2, by omega⟩
  show escapeTimeGo ⟨5, 0⟩ (k + 2) ⟨0, 0⟩ 0 = some 1
  rw [escapeTimeGo, if_neg (by norm_num [Complex.norm_sqr]),
    escapeTimeGo, if_pos (by norm_num [Complex.norm_sqr])]

/-- C3 amended witness: at `L = 5` the escape is reported at iteration
`1`. -/
theorem escape_time_five_amended_witness : escape_time ⟨5, 0⟩ 5 = some 1 :=
  escape_time_five_amended 5 (by norm_num)

/-- C10: `escape_time` never reports escape at iteration `0` (the first
threshold check sees `z = (0,0)`, whose squared norm is `0`), and with
limit `0` it returns `none` for every point. -/
theorem escape_time_index_positive :
    (∀ (c : Complex) (limit i : Nat), escape_time c limit = some i → 1 ≤ i) ∧
    ∀ (c : Complex), escape_time c 0 = none := by
  constructor
  · intro c limit i h
    cases limit with
    | zero => simp [escape_time, escapeTimeGo] at h
    | succ l =>
      rw [escape_time, escapeTimeGo,
        if_neg (by norm_num [Complex.norm_sqr])] at h
      exact escapeTimeGo_index_le c l _ 1 i h
  · intro c; rfl

/-- C10 witness: at `c = (5,0)`, `limit = 2` the returned index is `≥ 1`,
and `escape_time ⟨5,0⟩ 0 = none`. -/
theorem escape_time_index_positive_witness :
    1 ≤ 1 ∧ escape_time ⟨5, 0⟩ 0 = none :=
  ⟨escape_time_index_positive.1 ⟨5, 0⟩ 2 1
    (by norm_num [escape_time, escapeTimeGo, Complex.norm_sqr]),
   escape_time_index_positive.2 ⟨5, 0⟩⟩

/-! ### Claim theorems: coordinate mapper -/

/-- C4: `pixel_to_point` computes
`re = ul.re + column * (lr.re - ul.re) / width` and
`im = ul.im - row * (ul.im - lr.im) / height`, and on the literal scenario
`bounds = (100,200)`, `pixel = (25,175)`, `ul = (-1,1)`, `lr = (1,-1)` it
returns `(-0.5, -0.75)`. -/
theorem pixel_to_point_formula :
    (∀ (W H col row : Nat) (ul lr : Complex),
      pixel_to_point (W, H) (col, row) ul lr =
        ⟨ul.re + (col : ℚ) * (lr.re - ul.re) / (W : ℚ),
         ul.im - (row : ℚ) * (ul.im - lr.im) / (H : ℚ)⟩) ∧
    pixel_to_point (100, 200) (25, 175) ⟨-1, 1⟩ ⟨1, -1⟩ =
      ⟨-(1 : ℚ) / 2, -(3 : ℚ) / 4⟩ := by
  refine ⟨fun W H col row ul lr => rfl, ?_⟩
  norm_num [pixel_to_point]

/-- C5: pixel `(0,0)` is mapped exactly to the upper-left corner (in the
exact-rational model of `f64` every coordinate is finite). -/
theorem pixel_to_point_zero (W H : Nat) (ul lr : Complex)
    (hW : 0 < W) (hH : 0 < H) :
    pixel_to_point (W, H) (0, 0) ul lr = ul := by
  cases ul with
  | mk re im => simp [pixel_to_point]

/-- C5 witness: bounds `(1,1)`, rectangle `(2,3)`–`(4,5)`. -/
theorem pixel_to_point_zero_witness :
    pixel_to_point (1, 1) (0, 0) ⟨2, 3⟩ ⟨4, 5⟩ = ⟨2, 3⟩ :=
  pixel_to_point_zero 1 1 ⟨2, 3⟩ ⟨4, 5⟩ (by norm_num) (by norm_num)

/-! ### Properties of the render loops -/

theorem renderCell_eq (w h : Nat) (ul lr : Complex) (row : Nat)
    (buf : List Nat) (col : Nat) :
    renderCell (w, h) ul lr row buf col =
      buf.set (row * w + col) (pixelByte (w, h) ul lr col row) := rfl

theorem renderRow_eq (w h : Nat) (ul lr : Complex) (buf : List Nat)
    (row : Nat) :
    renderRow (w, h) ul lr buf row =
      (List.range w).foldl (renderCell (w, h) ul lr row) buf := rfl

/-- The inner (column) loop preserves the buffer length. -/
theorem renderRowGo_length (w h : Nat) (ul lr : Complex) (row : Nat) :
    ∀ (n : Nat) (buf : List Nat),
      ((List.range n).foldl (renderCell (w, h) ul lr row) buf).length =
        buf.length := by
  intro n
  induction n with
  | zero => intro buf; rfl
  | succ n ih =>
    intro buf
    rw [List.range_succ, List.foldl_append]
    simp only [List.foldl_cons, List.foldl_nil]
    rw [renderCell_eq, List.length_set, ih]

/-- The inner (column) loop writes only at indices `≥ row * w`. -/
theorem renderRowGo_get_lt (w h : Nat) (ul lr : Complex) (row : Nat) :
    ∀ (n : Nat) (buf : List Nat) (idx : Nat), idx < row * w →
      ((List.range n).foldl (renderCell (w, h) ul lr row) buf)[idx]? =
        buf[idx]? := by
  intro n
  induction n with
  | zero => intro buf idx _; rfl
  | succ n ih =>
    intro buf idx hidx
    rw [List.range_succ, List.foldl_append]
    simp only [List.foldl_cons, List.foldl_nil]
    rw [renderCell_eq, List.getElem?_set_ne (by omega)]
    exact ih buf idx hidx

/-- After the inner loop has processed columns `0..n`, the cell of column
`col < n` holds the pixel byte of `(col, row)`. -/
theorem renderRowGo_get (w h : Nat) (ul lr : Complex) (row : Nat) :
    ∀ (n : Nat) (buf : List Nat) (col : Nat), col < n →
      row * w + col < buf.length →
      ((List.range n).foldl (renderCell (w, h) ul lr row) buf)[row * w + col]? =
        some (pixelByte (w, h) ul lr col row) := by
  intro n
  induction n with
  | zero => intro buf col h _; exact absurd h (Nat.not_lt_zero col)
  | succ n ih =>
    intro buf col hcol hlt
    rw [List.range_succ, List.foldl_append]
    simp only [List.foldl_cons, List.foldl_nil]
    rw [renderCell_eq]
    rcases Nat.lt_or_ge col n with hc | hc
    · rw [List.getElem?_set_ne (by omega)]
      exact ih buf col hc hlt
    · have hcn : col = n := by omega
      subst hcn
      apply List.getElem?_set_eq_of_lt
      rw [renderRowGo_length]
      exact hlt

/-- The outer (row) loop preserves the buffer length. -/
theorem renderRows_length (w h : Nat) (ul lr : Complex) :
    ∀ (m : Nat) (buf : List Nat),
      ((List.range m).foldl (renderRow (w, h) ul lr) buf).length =
        buf.length := by
  intro m
  induction m with
  | zero => intro buf; rfl
  | succ m ih =>
    intro buf
    rw [List.range_succ, List.foldl_append]
    simp only [List.foldl_cons, List.foldl_nil]
    rw [renderRow_eq, renderRowGo_length, ih]

/-- After the outer loop has processed rows `0..m`, the cell at index
`row * w + col` (`row < m`, `col < w`) holds the pixel byte of
`(col, row)`. -/
theorem renderRows_get (w h : Nat) (ul lr : Complex) :
    ∀ (m : Nat) (buf : List Nat) (row col : Nat),
      row < m → col < w → row * w + col < buf.length →
      ((List.range m).foldl (renderRow (w, h) ul lr) buf)[row * w + col]? =
        some (pixelByte (w, h) ul lr col row) := by
  intro m
  induction m with
  | zero => intro buf row col h _ _; exact absurd h (Nat.not_lt_zero row)
  | succ m ih =>
    intro buf row col hrow hcol hlt
    rw [List.range_succ, List.foldl_append]
    simp only [List.foldl_cons, List.foldl_nil]
    rw [renderRow_eq]
    rcases Nat.lt_or_ge row m with hr | hr
    · have hmul : row * w + col < m * w := by
        have h1 : row * w + col < (row + 1) * w := by rw [Nat.succ_mul]; omega
        have h2 : (row + 1) * w ≤ m * w := Nat.mul_le_mul_right w hr
        omega
      rw [renderRowGo_get_lt w h ul lr m _ _ _ hmul]
      exact ih buf row col hr hcol hlt
    · have hrm : row = m := by omega
      subst hrm
      apply renderRowGo_get
      · exact hcol
      · rw [renderRows_length]; exact hlt

/-- Successful `render` is the nested loop fold. -/
theorem render_eq_some (w h : Nat) (ul lr : Complex) (pixels : List Nat)
    (hlen : pixels.length = w * h) :
    render pixels (w, h) ul lr =
      some ((List.range h).foldl (renderRow (w, h) ul lr) pixels) := by
  rw [render, if_pos hlen]

/-- Every index `row * w + col` written by the loops is within a buffer of
length `w * h`. -/
theorem render_index_lt (w h row col : Nat) (hrow : row < h) (hcol : col < w) :
    row * w + col < w * h :=
  calc row * w + col < (row + 1) * w := by rw [Nat.succ_mul]; omega
    _ ≤ h * w := Nat.mul_le_mul_right w hrow
    _ = w * h := Nat.mul_comm h w

/-- The byte written for a pixel is at most `255`. -/
theorem pixelByte_le (bounds : Nat × Nat) (ul lr : Complex) (col row : Nat) :
    pixelByte bounds ul lr col row ≤ 255 := by
  rcases hesc : escape_time (pixel_to_point bounds (col, row) ul lr) 255
    with _ | ct <;> simp only [pixelByte, hesc] <;> omega

/-! ### Claim theorems: renderer -/

/-- C1: with positive bounds and a buffer of length exactly
`width * height`, `render` succeeds and the byte at `row * width + column`
is `255 - i` when the mapped point escapes at iteration `i` (with limit
`255`), and `0` when it does not escape. -/
theorem render_writes_escape_bytes (w h : Nat) (ul lr : Complex)
    (pixels : List Nat) (hw : 0 < w) (hh : 0 < h)
    (hlen : pixels.length = w * h) (row col : Nat)
    (hrow : row < h) (hcol : col < w) :
    ∃ out, render pixels (w, h) ul lr = some out ∧
      (∀ i, escape_time (pixel_to_point (w, h) (col, row) ul lr) 255 = some i →
        out[row * w + col]? = some (255 - i)) ∧
      (escape_time (pixel_to_point (w, h) (col, row) ul lr) 255 = none →
        out[row * w + col]? = some 0) := by
  have hidx : row * w + col < pixels.length := by
    rw [hlen]; exact render_index_lt w h row col hrow hcol
  have hget := renderRows_get w h ul lr h pixels row col hrow hcol hidx
  refine ⟨_, render_eq_some w h ul lr pixels hlen, ?_, ?_⟩
  · intro i hi
    rw [hget]
    have hilt : i < 255 := escape_time_lt_limit _ 255 i hi
    simp only [pixelByte, hi]
    rw [Nat.mod_eq_of_lt (by omega)]
  · intro hnone
    rw [hget]
    simp only [pixelByte, hnone]

/-- C1 witness: bounds `(1,1)`, buffer `[7]`, rectangle `(-2,2)`–`(2,-2)`;
pixel `(0,0)` maps to `(-2,2)`, which escapes at iteration `1`, so the
rendered byte is `255 - 1 = 254`. -/
theorem render_writes_escape_bytes_witness :
    ∃ out, render [7] (1, 1) ⟨-2, 2⟩ ⟨2, -2⟩ = some out ∧
      out[0 * 1 + 0]? = some (255 - 1) := by
  obtain ⟨out, hr, hsome, _⟩ := render_writes_escape_bytes 1 1 ⟨-2, 2⟩ ⟨2, -2⟩
    [7] (by norm_num) (by norm_num) (by norm_num) 0 0 (by norm_num) (by norm_num)
  refine ⟨out, hr, hsome 1 ?_⟩
  exact escape_time_escapes_at_one _ 255 (by norm_num)
    (by norm_num [pixel_to_point, Complex.norm_sqr])

/-- C6: in a successful render with positive bounds and a non-degenerate
rectangle, every byte of the output is in `[0, 255]`, and a byte is `0`
exactly when the corresponding mapped point did not escape within 255
iterations. -/
theorem render_bytes_invariant (w h : Nat) (ul lr : Complex)
    (pixels out : List Nat) (hw : 0 < w) (hh : 0 < h)
    (hre : ul.re < lr.re) (him : lr.im < ul.im)
    (hlen : pixels.length = w * h)
    (hout : render pixels (w, h) ul lr = some out) :
    (∀ idx, idx < w * h → ∃ b, out[idx]? = some b ∧ b ≤ 255) ∧
    (∀ row col, row < h → col < w →
      (out[row * w + col]? = some 0 ↔
        escape_time (pixel_to_point (w, h) (col, row) ul lr) 255 = none)) := by
  rw [render_eq_some w h ul lr pixels hlen] at hout
  have hout' : out = (List.range h).foldl (renderRow (w, h) ul lr) pixels := by
    injection hout with hout; exact hout.symm
  subst hout'
  constructor
  · intro idx hidx
    have hcol : idx % w < w := Nat.mod_lt idx hw
    have hrow : idx / w < h := by
      rw [Nat.div_lt_iff_lt_mul hw]
      calc idx < w * h := hidx
        _ = h * w := Nat.mul_comm w h
    have hdec : (idx / w) * w + idx % w = idx := by
      rw [Nat.mul_comm]; exact Nat.div_add_mod idx w
    have hget := renderRows_get w h ul lr h pixels (idx / w) (idx % w)
      hrow hcol (by rw [hdec, hlen]; exact hidx)
    rw [hdec] at hget
    exact ⟨pixelByte (w, h) ul lr (idx % w) (idx / w), hget,
      pixelByte_le (w, h) ul lr (idx % w) (idx / w)⟩
  · intro row col hrow hcol
    have hidx : row * w + col < pixels.length := by
      rw [hlen]; exact render_index_lt w h row col hrow hcol
    have hget := renderRows_get w h ul lr h pixels row col hrow hcol hidx
    rw [hget]
    constructor
    · intro h0
      rcases hesc : escape_time (pixel_to_point (w, h) (col, row) ul lr) 255
        with _ | i
      · rfl
      · exfalso
        have hilt : i < 255 := escape_time_lt_limit _ 255 i hesc
        simp only [pixelByte, hesc, Option.some.injEq] at h0
        rw [Nat.mod_eq_of_lt (by omega)] at h0
        omega
    · intro hnone
      simp only [pixelByte, hnone]

/-- C6 witness: bounds `(1,1)`, buffer `[7]`, rectangle `(-2,2)`–`(2,-2)`:
the byte of pixel `(0,0)` is `0` iff the mapped point does not escape. -/
theorem render_bytes_invariant_witness :
    ((List.range 1).foldl (renderRow (1, 1) ⟨-2, 2⟩ ⟨2, -2⟩) [7])[0 * 1 + 0]? =
        some 0 ↔
      escape_time (pixel_to_point (1, 1) (0, 0) ⟨-2, 2⟩ ⟨2, -2⟩) 255 = none :=
  (render_bytes_invariant 1 1 ⟨-2, 2⟩ ⟨2, -2⟩ [7] _
    (by norm_num) (by norm_num) (by norm_num) (by norm_num) (by norm_num)
    (render_eq_some 1 1 ⟨-2, 2⟩ ⟨2, -2⟩ [7] (by norm_num))).2 0 0
    (by norm_num) (by norm_num)

/-- C7: `render` fails (the modelled `assert!`) exactly when the buffer
length differs from `width * height`, and under the precondition every
written index `row * width + column` is within the buffer. -/
theorem render_checks_buffer_length (pixels : List Nat) (w h : Nat)
    (ul lr : Complex) :
    ((render pixels (w, h) ul lr ≠ none) ↔ pixels.length = w * h) ∧
    (pixels.length = w * h → ∀ row col, row < h → col < w →
      row * w + col < pixels.length) := by
  constructor
  · constructor
    · intro hne
      by_contra hlen
      exact hne (by rw [render, if_neg hlen])
    · intro hlen
      rw [render_eq_some w h ul lr pixels hlen]
      simp
  · intro hlen row col hrow hcol
    rw [hlen]
    exact render_index_lt w h row col hrow hcol

/-- C7 witness: a buffer of the right length (`[0,0]` for bounds `(2,1)`)
is accepted, and the written index `(row, col) = (0, 1)` is in bounds. -/
theorem render_checks_buffer_length_witness :
    (render [0, 0] (2, 1) ⟨0, 0⟩ ⟨1, 1⟩ ≠ none) ∧ 0 * 2 + 1 < 2 :=
  ⟨(render_checks_buffer_length [0, 0] 2 1 ⟨0, 0⟩ ⟨1, 1⟩).1.mpr (by norm_num),
   by
    have h2 : (([0, 0] : List Nat)).length = 2 * 1 := by norm_num
    have h3 := (render_checks_buffer_length [0, 0] 2 1 ⟨0, 0⟩ ⟨1, 1⟩).2 h2
      0 1 (by norm_num) (by norm_num)
    omega⟩

/-! ### Claim theorems: parsing -/

/-- Once the separator has been located at `idx`, `parse_pair` is the
two-token match. -/
theorem parse_pair_found {T : Type} (from_str : List Char → Option T)
    (s : List Char) (sep : Char) (idx : Nat)
    (hfound : List.findIdx? (fun ch => ch == sep) s = some idx) :
    parse_pair from_str s sep =
      match from_str (s.take idx), from_str (s.drop (idx + 1)) with
      | some l, some r => some (l, r)
      | _, _ => none := by
  rw [parse_pair, hfound]

/-- C8: `parse_pair` (for any token parser) returns `none` whenever the
separator is absent or either token fails to parse, and returns a pair
only when both tokens parse — never a partial result. -/
theorem parse_pair_failure_modes (T : Type) (from_str : List Char → Option T)
    (s : List Char) (sep : Char) :
    (∀ l r, parse_pair from_str s sep = some (l, r) →
      ∃ idx, List.findIdx? (fun ch => ch == sep) s = some idx ∧
        from_str (s.take idx) = some l ∧
        from_str (s.drop (idx + 1)) = some r) ∧
    (List.findIdx? (fun ch => ch == sep) s = none →
      parse_pair from_str s sep = none) ∧
    (∀ idx, List.findIdx? (fun ch => ch == sep) s = some idx →
      from_str (s.take idx) = none ∨ from_str (s.drop (idx + 1)) = none →
      parse_pair from_str s sep = none) := by
  refine ⟨?_, ?_, ?_⟩
  · intro l r h
    rw [parse_pair] at h
    split at h
    · next idx hfound =>
      split at h
      · next l' r' hl hr =>
        have hlr : l' = l ∧ r' = r := by
          constructor <;> injection h with h <;> injection h
        exact ⟨idx, hfound, hlr.1 ▸ hl, hlr.2 ▸ hr⟩
      · exact absurd h (by simp)
    · exact absurd h (by simp)
  · intro hnone
    rw [parse_pair, hnone]
  · intro idx hfound hfail
    rw [parse_pair_found from_str s sep idx hfound]
    rcases hfail with hfail | hfail
    · rw [hfail]
    · rcases hl : from_str (s.take idx) with _ | l'
      · rfl
      · rw [hfail]

/-- C8 witness: with the natural-number token parser, `"1,"` (failing
right token) parses to `none`, via the failure branch of the theorem. -/
theorem parse_pair_failure_modes_witness :
    parse_pair parseNat ['1', ','] ',' = none :=
  (parse_pair_failure_modes Nat parseNat ['1', ','] ',').2.2 1
    (by decide) (Or.inr (by decide))

/-- C9: the literal parsing scenarios: `"500x300"` with separator `'x'`
parses to the integer pair `(500, 300)`; `"500x"` and `""` parse to
`none`; `"0.1,0.3"` parses to the complex point with `re` the exact value
`0.1 = 1/10` and `im` the exact value `0.3 = 3/10`; `",0.3"` parses to
`none`. -/
theorem parse_literal_scenarios :
    parse_pair parseInt ['5', '0', '0', 'x', '3', '0', '0'] 'x' =
      some (500, 300) ∧
    parse_pair parseInt ['5', '0', '0', 'x'] 'x' = none ∧
    parse_pair parseInt ([] : List Char) 'x' = none ∧
    parse_complex ['0', '.', '1', ',', '0', '.', '3'] =
      some ⟨1 / 10, 3 / 10⟩ ∧
    parse_complex [',', '0', '.', '3'] = none := by
  refine ⟨by decide, by decide, by decide, ?_, ?_⟩
  · simp [parse_complex, parse_pair, parseFloat, digitsVal, List.findIdx?]
  · simp [parse_complex, parse_pair, parseFloat, digitsVal, List.findIdx?]

end Mandelbrot
